import Mathlib

/-!
# Side statistics service (`server/services/stats/side/stats_side.go`)

A shallow embedding of the `stats_side` package: the facade operations
`Realtime`, `ServersStats`, `ProjectStats`, the one-pass synchronisation
`tryRunUpdateGa` and the bounded retry loop `RunUpdateGa`.

The three provider clients are interfaces whose implementations live outside
the package.  They are embedded as arbitrary state transformers over an
environment state `σ` (provider state, clock, anything else the outside world
holds), so every theorem below holds for every provider behaviour that returns.
Calls made to the collaborators are recorded in a `World`, next to the
environment, so that "how many calls" and "with which arguments" can be stated.
-/

namespace StatsSide

/-! ## Time -/

/-- An instant, as an exact number of nanoseconds since the zero time. -/
abbrev Time := Int

/-- A `time.Duration`, in nanoseconds. -/
abbrev Duration := Int

/-- The constant `time.Hour`. -/
def Hour : Duration := 3600 * 1000000000

/-- The constant `MaxRetry = 5`. -/
def MaxRetry : Nat := 5

/-- The constant `Day = time.Hour * 24`. -/
def Day : Duration := Hour * 24

/-- The constant `rtGAKeyName = "TheQuestion"`. -/
def rtGAKeyName : String := "TheQuestion"

/-- The library method `time.Time.Truncate`: `t` rounded down to a multiple of `d`
since the zero time; `t` itself when `d <= 0`. -/
def Truncate (t : Time) (d : Duration) : Time :=
  if d ≤ 0 then t else t - t % d

/-! ## Values exchanged with the collaborators -/

/-- A Go `error` value that is not nil. -/
abbrev Error := String

/-- Modelled from the spec: `types.Date` is declared outside this package; records are
"stamped with syncDate", so a date carries the instant it was made from. -/
structure Date where
  time : Time
deriving DecidableEq, Repr

/-- Modelled from the spec: `types.NewDate`, declared outside this package, makes the
stamp out of the sync date. -/
def NewDate (t : Time) : Date := ⟨t⟩

/-- Modelled from the spec: the daily summary of one account, provider-defined
metric fields and the `Timestamp` field the pass assigns. -/
structure GaSummary where
  metrics : List Int
  Timestamp : Date
deriving DecidableEq, Repr

/-- Modelled from the spec: one per-entity record of the breakdown, provider-defined
metric fields and the `Timestamp` field the pass assigns. -/
structure GaQuestion where
  metrics : List Int
  Timestamp : Date
deriving DecidableEq, Repr

/-- A Go map: finitely many entries with pairwise distinct keys. -/
structure GoMap (K V : Type) where
  entries : List (K × V)
  nodup : (entries.map Prod.fst).Nodup

/-- The index expression `m[k]`: the value stored under `k`, the zero value of the
element type when the key is absent. -/
def GoMap.index {K V : Type} [DecidableEq K] (m : GoMap K V) (k : K) (zero : V) : V :=
  match m.entries.find? (fun e => decide (e.1 = k)) with
  | some e => e.2
  | none => zero

/-- The builtin `len(m)`. -/
def GoMap.len {K V : Type} (m : GoMap K V) : Nat := m.entries.length

/-- The keys of a map. -/
def GoMap.keys {K V : Type} (m : GoMap K V) : List K := m.entries.map Prod.fst

/-- The empty (or nil) map. -/
def GoMap.empty {K V : Type} : GoMap K V := ⟨[], List.nodup_nil⟩

/-- The fields of `Config` the package reads. -/
structure Config where
  GoogleAnalyticsIds : GoMap String String

/-! ## Collaborators -/

/-- The analytics client: each method takes the environment and returns its Go result
pair `(value, error)` together with the environment it leaves behind. -/
structure GaClient (σ : Type) where
  GaGetRealtime : String → σ → (Int × Option Error) × σ
  GaGetSummaryData : String → Time → Time → σ → (GaSummary × Option Error) × σ
  GaGetQuestionsData : String → Time → Time → σ → (GoMap Int GaQuestion × Option Error) × σ

/-- The performance-monitor client; a server is represented by its name. -/
structure NrClient (σ : Type) where
  GetServersStats : σ → (List String × Option Error) × σ

/-- The build-system client; a project is represented by its name. -/
structure TcClient (σ : Type) where
  GetProjectsStatus : σ → (List String × Option Error) × σ

/-- What the language runtime decides: the reading of the clock and the order in which
a `range` statement yields the entries of a map, which the language leaves unspecified
and which may differ from one `range` to the next (hence the dependence on `σ`). -/
structure Runtime (σ : Type) where
  now : σ → Time
  rangeIds : GoMap String String → σ → List (String × String)
  rangeIds_perm : ∀ m e, (rangeIds m e).Perm m.entries
  rangeQuestions : GoMap Int GaQuestion → σ → List (Int × GaQuestion)
  rangeQuestions_perm : ∀ m e, (rangeQuestions m e).Perm m.entries

/-- The receiver `sideStats` (the logger field is the log kept in `World`). -/
structure sideStats (σ : Type) where
  gaClient : GaClient σ
  nrClient : NrClient σ
  tcClient : TcClient σ
  config : Config
  rt : Runtime σ

/-! ## Recorded effects -/

/-- A call made to a provider client, with its arguments and the error it returned. -/
inductive Call where
  | GaGetRealtime (id : String) (err : Option Error)
  | GaGetSummaryData (gaId : String) (start finish : Time) (err : Option Error)
  | GaGetQuestionsData (gaId : String) (start finish : Time) (err : Option Error)
  | GetServersStats (err : Option Error)
  | GetProjectsStatus (err : Option Error)
deriving DecidableEq, Repr

/-- The error a recorded call returned. -/
def Call.err : Call → Option Error
  | .GaGetRealtime _ e => e
  | .GaGetSummaryData _ _ _ e => e
  | .GaGetQuestionsData _ _ _ e => e
  | .GetServersStats e => e
  | .GetProjectsStatus e => e

/-- A line handed to the logger. -/
inductive LogEntry where
  | updating (gaId : String)
  | skipping (gaId : String)
  | summaryReceived (gaId : String)
  | questionsReceived (gaId : String) (count : Nat)
  | saved (gaId : String)
  | failed (err : Error) (retry : Nat)
deriving DecidableEq, Repr

/-- The local values a pass holds for one account at the line
`// saving ga stats to db`: the stamped summary, the breakdown as the provider returned
it, the key list `qIds`, and the stamped loop values `qq`. -/
structure Batch where
  gaId : String
  summary : GaSummary
  questions : GoMap Int GaQuestion
  qIds : List Int
  stamped : List GaQuestion

/-- The environment together with the record of what the package did to it. -/
structure World (σ : Type) where
  env : σ
  calls : List Call
  logs : List LogEntry
  batches : List Batch

/-- A world with nothing recorded yet. -/
def World.init {σ : Type} (e : σ) : World σ := ⟨e, [], [], []⟩

/-- Record a logger line. -/
def World.log {σ : Type} (w : World σ) (l : LogEntry) : World σ :=
  { w with logs := w.logs ++ [l] }

/-- Record a provider call and move to the environment it left. -/
def World.call {σ : Type} (w : World σ) (c : Call) (e : σ) : World σ :=
  { w with env := e, calls := w.calls ++ [c] }

/-- Record the values held at the saving point. -/
def World.build {σ : Type} (w : World σ) (b : Batch) : World σ :=
  { w with batches := w.batches ++ [b] }

/-! ## The facade -/

/-- The method `Realtime`. -/
def Realtime {σ : Type} (t : sideStats σ) (w : World σ) : (Int × Option Error) × World σ :=
  let id := t.config.GoogleAnalyticsIds.index rtGAKeyName ""
  let r := t.gaClient.GaGetRealtime id w.env
  (r.1, w.call (.GaGetRealtime id r.1.2) r.2)

/-- The method `ServersStats`. -/
def ServersStats {σ : Type} (t : sideStats σ) (w : World σ) :
    (List String × Option Error) × World σ :=
  let r := t.nrClient.GetServersStats w.env
  (r.1, w.call (.GetServersStats r.1.2) r.2)

/-- The method `ProjectStats`. -/
def ProjectStats {σ : Type} (t : sideStats σ) (w : World σ) :
    (List String × Option Error) × World σ :=
  let r := t.tcClient.GetProjectsStatus w.env
  (r.1, w.call (.GetProjectsStatus r.1.2) r.2)

/-! ## One pass -/

/-- The inner loop of `tryRunUpdateGa` over the breakdown, in the order `range` yields
it: `qIds[j] = id`, the loop value `qq` gets its `Timestamp`, `j++`.  Returns the key
list, the stamped loop values and the final `j`. -/
def fillIds (timestamp : Time) :
    List (Int × GaQuestion) → Nat → List Int → List GaQuestion → List Int × List GaQuestion × Nat
  | [], j, qIds, stamped => (qIds, stamped, j)
  | (id, qq) :: rest, j, qIds, stamped =>
    let qIds := qIds.set j id
    let qq := { qq with Timestamp := NewDate timestamp }
    fillIds timestamp rest (j + 1) qIds (stamped ++ [qq])

/-- The body of `tryRunUpdateGa`, over the entries of `GoogleAnalyticsIds` in the order
`range` yields them. -/
def tryRunUpdateGaRange {σ : Type} (s : sideStats σ) (timestamp : Time) :
    List (String × String) → World σ → Option Error × World σ
  | [], w => (none, w)
  | (_, gaId) :: rest, w =>
    let w := w.log (.updating gaId)
    let found := false
    if found then
      tryRunUpdateGaRange s timestamp rest (w.log (.skipping gaId))
    else
      let r := s.gaClient.GaGetSummaryData gaId (timestamp - Day) timestamp w.env
      let w := w.call (.GaGetSummaryData gaId (timestamp - Day) timestamp r.1.2) r.2
      match r.1.2 with
      | some err => (some err, w)
      | none =>
        let summary := { r.1.1 with Timestamp := NewDate timestamp }
        let w := w.log (.summaryReceived gaId)
        let q := s.gaClient.GaGetQuestionsData gaId (timestamp - Day) timestamp w.env
        let w := w.call (.GaGetQuestionsData gaId (timestamp - Day) timestamp q.1.2) q.2
        match q.1.2 with
        | some err => (some err, w)
        | none =>
          let questions := q.1.1
          let w := w.log (.questionsReceived gaId questions.len)
          let qIds := List.replicate questions.len (0 : Int)
          let filled := fillIds timestamp (s.rt.rangeQuestions questions w.env) 0 qIds []
          let w := w.build ⟨gaId, summary, questions, filled.1, filled.2.1⟩
          let w := w.log (.saved gaId)
          tryRunUpdateGaRange s timestamp rest w

/-- The method `tryRunUpdateGa`. -/
def tryRunUpdateGa {σ : Type} (s : sideStats σ) (timestamp : Time) (w : World σ) :
    Option Error × World σ :=
  tryRunUpdateGaRange s timestamp (s.rt.rangeIds s.config.GoogleAnalyticsIds w.env) w

/-! ## The retry loop -/

/-- What one invocation of `RunUpdateGa` did: the passes it ran, each with what the pass
returned and the world at its return, and the world when `RunUpdateGa` returns. -/
structure Run (σ : Type) where
  passes : List (Option Error × World σ)
  final : World σ

/-- The `for` loop of `RunUpdateGa`, entered with the current value of `retry`. -/
def RunUpdateGaLoop {σ : Type} (s : sideStats σ) (date : Time) (retry : Nat) (w : World σ) :
    Run σ :=
  let r := tryRunUpdateGa s date w
  match r.1 with
  | none => ⟨[r], r.2⟩
  | some err =>
    let retry := retry + 1
    let w := r.2.log (.failed err retry)
    if retry > MaxRetry then
      ⟨[r], w⟩
    else
      let rest := RunUpdateGaLoop s date retry w
      ⟨r :: rest.passes, rest.final⟩
termination_by MaxRetry + 1 - retry
decreasing_by omega

/-- The method `RunUpdateGa`. -/
def RunUpdateGa {σ : Type} (s : sideStats σ) (w : World σ) : Run σ :=
  let date := Truncate (s.rt.now w.env) Day
  let retry := 0
  RunUpdateGaLoop s date retry w

/-! ## Vocabulary of the statements -/

/-- The two calls a pass makes for an account both of whose fetches succeed. -/
def fetchPair (ts : Time) (gaId : String) : List Call :=
  [.GaGetSummaryData gaId (ts - Day) ts none, .GaGetQuestionsData gaId (ts - Day) ts none]

/-- The calls of a pass over the given entries when every fetch succeeds. -/
def fetchAll (ts : Time) : List (String × String) → List Call
  | [] => []
  | x :: rest => fetchPair ts x.2 ++ fetchAll ts rest

/-- What the values held at the saving point look like for a pass run with `ts`: the
summary carries the stamp of `ts`, and for some enumeration of the breakdown (the order
`range` yielded it) the key list is its keys and the loop values are its records, each
with the stamp of `ts`. -/
def Batch.BuiltAt (ts : Time) (b : Batch) : Prop :=
  b.summary.Timestamp = NewDate ts ∧
  ∃ order : List (Int × GaQuestion), order.Perm b.questions.entries ∧
    b.qIds = order.map Prod.fst ∧
    b.stamped = order.map (fun x => { x.2 with Timestamp := NewDate ts })

/-- The world a pass reaches after an account both of whose fetches succeeded. -/
def afterAccount {σ : Type} (s : sideStats σ) (ts : Time) (gaId : String) (w : World σ) :
    World σ :=
  let r := s.gaClient.GaGetSummaryData gaId (ts - Day) ts w.env
  let q := s.gaClient.GaGetQuestionsData gaId (ts - Day) ts r.2
  let filled := fillIds ts (s.rt.rangeQuestions q.1.1 q.2) 0 (List.replicate q.1.1.len 0) []
  { env := q.2
    calls := w.calls ++ fetchPair ts gaId
    logs := w.logs ++ [.updating gaId, .summaryReceived gaId,
      .questionsReceived gaId q.1.1.len, .saved gaId]
    batches := w.batches ++
      [⟨gaId, { r.1.1 with Timestamp := NewDate ts }, q.1.1, filled.1, filled.2.1⟩] }

/-- A recorded call is a summary or entity fetch over the window `[ts - Day, ts)`. -/
def Call.InWindow (ts : Time) : Call → Prop
  | .GaGetSummaryData _ a b _ => a = ts - Day ∧ b = ts
  | .GaGetQuestionsData _ a b _ => a = ts - Day ∧ b = ts
  | _ => False

/-- How many summary fetches for the account `gaId` a list of calls holds. -/
def summaryFetches (gaId : String) (calls : List Call) : Nat :=
  (calls.filter (fun c => match c with
    | .GaGetSummaryData g _ _ _ => g == gaId
    | _ => false)).length

/-! ## A concrete deployment, used to run the definitions -/

/-- The configured accounts `A` and `B`. -/
def abMap : GoMap String String := ⟨[("A", "ga-A"), ("B", "ga-B")], by decide⟩

/-- The breakdown with the two entities 101 and 102. -/
def twoQuestions : GoMap Int GaQuestion :=
  ⟨[(101, ⟨[7], ⟨0⟩⟩), (102, ⟨[9], ⟨0⟩⟩)], by decide⟩

/-- An analytics provider whose environment counts the failures it has had so far: account
`ga-A` always succeeds and has the entities 101 and 102; account `ga-B` fails, at its
summary fetch or at its entity fetch, until it has failed `failures` times. -/
def abClient (failures : Nat) (atSummary : Bool) : GaClient Nat where
  GaGetRealtime := fun _ e => ((42, none), e)
  GaGetSummaryData := fun gaId _ _ e =>
    if gaId = "ga-B" ∧ atSummary = true ∧ e < failures then ((⟨[], ⟨0⟩⟩, some "down"), e + 1)
    else ((⟨[1], ⟨0⟩⟩, none), e)
  GaGetQuestionsData := fun gaId _ _ e =>
    if gaId = "ga-B" ∧ atSummary = false ∧ e < failures then ((GoMap.empty, some "down"), e + 1)
    else if gaId = "ga-A" then ((twoQuestions, none), e)
    else ((GoMap.empty, none), e)

/-- A runtime whose `range` yields the entries as listed; the clock moves with the
environment. -/
def rtListed : Runtime Nat where
  now := fun e => 100 * Day + 5 + e
  rangeIds := fun m _ => m.entries
  rangeIds_perm := fun _ _ => List.Perm.refl _
  rangeQuestions := fun m _ => m.entries
  rangeQuestions_perm := fun _ _ => List.Perm.refl _

/-- A runtime whose `range` yields the entries in the opposite order. -/
def rtReversed : Runtime Nat where
  now := fun e => 100 * Day + 5 + e
  rangeIds := fun m _ => m.entries.reverse
  rangeIds_perm := fun _ _ => List.reverse_perm _
  rangeQuestions := fun m _ => m.entries.reverse
  rangeQuestions_perm := fun _ _ => List.reverse_perm _

/-- The service over the provider `abClient`, with the given accounts and runtime. -/
def abStats (rt : Runtime Nat) (accounts : GoMap String String) (failures : Nat)
    (atSummary : Bool) : sideStats Nat where
  gaClient := abClient failures atSummary
  nrClient := ⟨fun e => ((["web-1"], some "timeout"), e)⟩
  tcClient := ⟨fun e => ((["build"], none), e)⟩
  config := ⟨accounts⟩
  rt := rt

/-- The list of passes of a loop entered with `retry` in the world `w` is made of
successive invocations of `tryRunUpdateGa` with the same date: the first one in `w`, and
after a pass that returned the error `e` the next one in the world that pass left, with
the logger line of the failure added. -/
def Chained {σ : Type} (s : sideStats σ) (date : Time) :
    Nat → World σ → List (Option Error × World σ) → Prop
  | _, _, [] => False
  | retry, w, p :: ps =>
    p = tryRunUpdateGa s date w ∧
    (ps = [] ∨ ∃ e, p.1 = some e ∧
      Chained s date (retry + 1) (p.2.log (.failed e (retry + 1))) ps)

/-- The calls of a pass that fetches `ga-A` and then fails at `ga-B`. -/
def abortedAtB (date : Time) (atSummary : Bool) : List Call :=
  fetchPair date "ga-A" ++
    (if atSummary then [.GaGetSummaryData "ga-B" (date - Day) date (some "down")]
     else [.GaGetSummaryData "ga-B" (date - Day) date none,
       .GaGetQuestionsData "ga-B" (date - Day) date (some "down")])

/-! ## The inner loop -/

theorem fillIds_spec (ts : Time) :
    ∀ (order : List (Int × GaQuestion)) (pre : List Int) (n : Nat) (stamped : List GaQuestion),
      fillIds ts order pre.length (pre ++ List.replicate (order.length + n) 0) stamped =
        (pre ++ order.map Prod.fst ++ List.replicate n 0,
          stamped ++ order.map (fun x => { x.2 with Timestamp := NewDate ts }),
          pre.length + order.length) := by
  intro order
  induction order with
  | nil => intro pre n stamped; simp [fillIds]
  | cons x rest ih =>
    intro pre n stamped
    obtain ⟨id, qq⟩ := x
    have hset : (pre ++ List.replicate (rest.length + 1 + n) (0 : Int)).set pre.length id =
        (pre ++ [id]) ++ List.replicate (rest.length + n) 0 := by
      rw [List.set_append_right _ _ (Nat.le_refl _)]
      have : rest.length + 1 + n = (rest.length + n) + 1 := by omega
      simp [this, List.replicate_succ]
    have ih2 := ih (pre ++ [id]) n (stamped ++ [{ qq with Timestamp := NewDate ts }])
    simp only [List.length_append, List.length_singleton] at ih2
    simp only [fillIds, List.length_cons, hset, ih2]
    simp [Nat.add_assoc, Nat.add_comm 1]

section PassLemmas
variable {σ : Type}

theorem range_nil (s : sideStats σ) (ts : Time) (w : World σ) :
    tryRunUpdateGaRange s ts [] w = (none, w) := rfl

theorem range_cons_summary_err (s : sideStats σ) (ts : Time) (key gaId : String)
    (rest : List (String × String)) (w : World σ) (e : Error)
    (h : (s.gaClient.GaGetSummaryData gaId (ts - Day) ts w.env).1.2 = some e) :
    tryRunUpdateGaRange s ts ((key, gaId) :: rest) w =
      (some e, (w.log (.updating gaId)).call (.GaGetSummaryData gaId (ts - Day) ts (some e))
        (s.gaClient.GaGetSummaryData gaId (ts - Day) ts w.env).2) := by
  simp [tryRunUpdateGaRange, World.log, World.call, h]

theorem range_cons_questions_err (s : sideStats σ) (ts : Time) (key gaId : String)
    (rest : List (String × String)) (w : World σ) (e : Error)
    (h : (s.gaClient.GaGetSummaryData gaId (ts - Day) ts w.env).1.2 = none)
    (hq : (s.gaClient.GaGetQuestionsData gaId (ts - Day) ts
      (s.gaClient.GaGetSummaryData gaId (ts - Day) ts w.env).2).1.2 = some e) :
    tryRunUpdateGaRange s ts ((key, gaId) :: rest) w =
      (some e, (((w.log (.updating gaId)).call (.GaGetSummaryData gaId (ts - Day) ts none)
        (s.gaClient.GaGetSummaryData gaId (ts - Day) ts w.env).2).log
          (.summaryReceived gaId)).call (.GaGetQuestionsData gaId (ts - Day) ts (some e))
        (s.gaClient.GaGetQuestionsData gaId (ts - Day) ts
          (s.gaClient.GaGetSummaryData gaId (ts - Day) ts w.env).2).2) := by
  simp [tryRunUpdateGaRange, World.log, World.call, h, hq]

theorem range_cons_ok (s : sideStats σ) (ts : Time) (key gaId : String)
    (rest : List (String × String)) (w : World σ)
    (h : (s.gaClient.GaGetSummaryData gaId (ts - Day) ts w.env).1.2 = none)
    (hq : (s.gaClient.GaGetQuestionsData gaId (ts - Day) ts
      (s.gaClient.GaGetSummaryData gaId (ts - Day) ts w.env).2).1.2 = none) :
    tryRunUpdateGaRange s ts ((key, gaId) :: rest) w =
      tryRunUpdateGaRange s ts rest (afterAccount s ts gaId w) := by
  simp [tryRunUpdateGaRange, World.log, World.call, World.build, h, hq, afterAccount, fetchPair]

theorem fillIds_start (ts : Time) (m : GoMap Int GaQuestion) (order : List (Int × GaQuestion))
    (h : order.Perm m.entries) :
    fillIds ts order 0 (List.replicate m.len 0) [] =
      (order.map Prod.fst, order.map (fun x => { x.2 with Timestamp := NewDate ts }), m.len) := by
  have hlen : m.len = order.length + 0 := by simp [GoMap.len, h.length_eq]
  have := fillIds_spec ts order [] 0 []
  simp only [List.length_nil, List.nil_append, List.replicate_zero, List.append_nil] at this
  rw [hlen, this]
  simp

theorem afterAccount_batch (s : sideStats σ) (ts : Time) (gaId : String) (w : World σ) :
    ∃ b : Batch, (afterAccount s ts gaId w).batches = w.batches ++ [b] ∧ b.gaId = gaId ∧
      b.BuiltAt ts := by
  have hf := fillIds_start ts
    (s.gaClient.GaGetQuestionsData gaId (ts - Day) ts
      (s.gaClient.GaGetSummaryData gaId (ts - Day) ts w.env).2).1.1 _
    (s.rt.rangeQuestions_perm
      (s.gaClient.GaGetQuestionsData gaId (ts - Day) ts
        (s.gaClient.GaGetSummaryData gaId (ts - Day) ts w.env).2).1.1
      (s.gaClient.GaGetQuestionsData gaId (ts - Day) ts
        (s.gaClient.GaGetSummaryData gaId (ts - Day) ts w.env).2).2)
  refine ⟨_, rfl, rfl, rfl, _, s.rt.rangeQuestions_perm _
    (s.gaClient.GaGetQuestionsData gaId (ts - Day) ts
        (s.gaClient.GaGetSummaryData gaId (ts - Day) ts w.env).2).2, ?_, ?_⟩
  · simp only [hf]
  · simp only [hf]

theorem range_char (s : sideStats σ) (ts : Time) :
    ∀ (order : List (String × String)) (w : World σ),
      ((tryRunUpdateGaRange s ts order w).1 = none ∧
        (tryRunUpdateGaRange s ts order w).2.calls = w.calls ++ fetchAll ts order) ∨
      (∃ e pre key gaId post, order = pre ++ (key, gaId) :: post ∧
        (tryRunUpdateGaRange s ts order w).1 = some e ∧
        ((tryRunUpdateGaRange s ts order w).2.calls =
            w.calls ++ (fetchAll ts pre ++ [.GaGetSummaryData gaId (ts - Day) ts (some e)]) ∨
         (tryRunUpdateGaRange s ts order w).2.calls =
            w.calls ++ (fetchAll ts pre ++ [.GaGetSummaryData gaId (ts - Day) ts none,
              .GaGetQuestionsData gaId (ts - Day) ts (some e)]))) := by
  intro order
  induction order with
  | nil => intro w; left; simp [range_nil, fetchAll]
  | cons x rest ih =>
    intro w
    obtain ⟨key, gaId⟩ := x
    cases hr : (s.gaClient.GaGetSummaryData gaId (ts - Day) ts w.env).1.2 with
    | some e =>
      right
      refine ⟨e, [], key, gaId, rest, rfl, ?_, Or.inl ?_⟩
      · rw [range_cons_summary_err s ts key gaId rest w e hr]
      · rw [range_cons_summary_err s ts key gaId rest w e hr]
        simp [World.log, World.call, fetchAll]
    | none =>
      cases hq : (s.gaClient.GaGetQuestionsData gaId (ts - Day) ts
          (s.gaClient.GaGetSummaryData gaId (ts - Day) ts w.env).2).1.2 with
      | some e =>
        right
        refine ⟨e, [], key, gaId, rest, rfl, ?_, Or.inr ?_⟩
        · rw [range_cons_questions_err s ts key gaId rest w e hr hq]
        · rw [range_cons_questions_err s ts key gaId rest w e hr hq]
          simp [World.log, World.call, fetchAll]
      | none =>
        rw [range_cons_ok s ts key gaId rest w hr hq]
        have hc : (afterAccount s ts gaId w).calls = w.calls ++ fetchPair ts gaId := rfl
        rcases ih (afterAccount s ts gaId w) with ⟨h1, h2⟩ | ⟨e, pre, k2, g2, post, ho, h1, h2⟩
        · left
          refine ⟨h1, ?_⟩
          rw [h2, hc]
          simp [fetchAll]
        · right
          refine ⟨e, (key, gaId) :: pre, k2, g2, post, by simp [ho], h1, ?_⟩
          rcases h2 with h2 | h2
          · left; rw [h2, hc]; simp [fetchAll]
          · right; rw [h2, hc]; simp [fetchAll]

theorem range_logs (s : sideStats σ) (ts : Time) :
    ∀ (order : List (String × String)) (w : World σ),
      ∃ ls, (tryRunUpdateGaRange s ts order w).2.logs = w.logs ++ ls ∧
        ∀ g, LogEntry.skipping g ∉ ls := by
  intro order
  induction order with
  | nil => intro w; exact ⟨[], by simp [range_nil]⟩
  | cons x rest ih =>
    intro w
    obtain ⟨key, gaId⟩ := x
    cases hr : (s.gaClient.GaGetSummaryData gaId (ts - Day) ts w.env).1.2 with
    | some e =>
      rw [range_cons_summary_err s ts key gaId rest w e hr]
      exact ⟨[.updating gaId], by simp [World.log, World.call]⟩
    | none =>
      cases hq : (s.gaClient.GaGetQuestionsData gaId (ts - Day) ts
          (s.gaClient.GaGetSummaryData gaId (ts - Day) ts w.env).2).1.2 with
      | some e =>
        rw [range_cons_questions_err s ts key gaId rest w e hr hq]
        exact ⟨[.updating gaId, .summaryReceived gaId], by simp [World.log, World.call]⟩
      | none =>
        rw [range_cons_ok s ts key gaId rest w hr hq]
        obtain ⟨ls, h1, h2⟩ := ih (afterAccount s ts gaId w)
        refine ⟨[.updating gaId, .summaryReceived gaId, .questionsReceived gaId
          (s.gaClient.GaGetQuestionsData gaId (ts - Day) ts
            (s.gaClient.GaGetSummaryData gaId (ts - Day) ts w.env).2).1.1.len,
          .saved gaId] ++ ls, ?_, ?_⟩
        · rw [h1]
          simp only [afterAccount, List.append_assoc]
        · intro g
          simpa using h2 g

theorem range_batches (s : sideStats σ) (ts : Time) :
    ∀ (order : List (String × String)) (w : World σ),
      ∃ bs, (tryRunUpdateGaRange s ts order w).2.batches = w.batches ++ bs ∧
        (∀ b ∈ bs, b.BuiltAt ts) ∧
        ((tryRunUpdateGaRange s ts order w).1 = none →
          bs.map (fun b => b.gaId) = order.map Prod.snd) := by
  intro order
  induction order with
  | nil => intro w; exact ⟨[], by simp [range_nil]⟩
  | cons x rest ih =>
    intro w
    obtain ⟨key, gaId⟩ := x
    cases hr : (s.gaClient.GaGetSummaryData gaId (ts - Day) ts w.env).1.2 with
    | some e =>
      rw [range_cons_summary_err s ts key gaId rest w e hr]
      exact ⟨[], by simp [World.log, World.call]⟩
    | none =>
      cases hq : (s.gaClient.GaGetQuestionsData gaId (ts - Day) ts
          (s.gaClient.GaGetSummaryData gaId (ts - Day) ts w.env).2).1.2 with
      | some e =>
        rw [range_cons_questions_err s ts key gaId rest w e hr hq]
        exact ⟨[], by simp [World.log, World.call]⟩
      | none =>
        rw [range_cons_ok s ts key gaId rest w hr hq]
        obtain ⟨bs, h1, h2, h3⟩ := ih (afterAccount s ts gaId w)
        obtain ⟨b, hb1, hb2, hb3⟩ := afterAccount_batch s ts gaId w
        refine ⟨b :: bs, ?_, ?_, ?_⟩
        · rw [h1, hb1]; simp
        · intro b2 hb
          rcases List.mem_cons.mp hb with h | h
          · rw [h]; exact hb3
          · exact h2 b2 h
        · intro hn
          simp [h3 hn, hb2]

end PassLemmas

section LoopLemmas
variable {σ : Type}

theorem loop_done (s : sideStats σ) (date : Time) (retry : Nat) (w : World σ)
    (h : (tryRunUpdateGa s date w).1 = none) :
    RunUpdateGaLoop s date retry w = ⟨[tryRunUpdateGa s date w], (tryRunUpdateGa s date w).2⟩ := by
  rw [RunUpdateGaLoop]
  simp only [h]

theorem loop_give_up (s : sideStats σ) (date : Time) (retry : Nat) (w : World σ) (e : Error)
    (h : (tryRunUpdateGa s date w).1 = some e) (hr : retry + 1 > MaxRetry) :
    RunUpdateGaLoop s date retry w =
      ⟨[tryRunUpdateGa s date w], (tryRunUpdateGa s date w).2.log (.failed e (retry + 1))⟩ := by
  rw [RunUpdateGaLoop]
  simp only [h, hr, if_true]

theorem loop_again (s : sideStats σ) (date : Time) (retry : Nat) (w : World σ) (e : Error)
    (h : (tryRunUpdateGa s date w).1 = some e) (hr : ¬ retry + 1 > MaxRetry) :
    RunUpdateGaLoop s date retry w =
      ⟨tryRunUpdateGa s date w ::
          (RunUpdateGaLoop s date (retry + 1)
            ((tryRunUpdateGa s date w).2.log (.failed e (retry + 1)))).passes,
        (RunUpdateGaLoop s date (retry + 1)
            ((tryRunUpdateGa s date w).2.log (.failed e (retry + 1)))).final⟩ := by
  rw [RunUpdateGaLoop]
  simp only [h, hr, if_false]

theorem loop_spec (s : sideStats σ) (date : Time) :
    ∀ (n retry : Nat) (w : World σ), retry + n = MaxRetry →
      ∃ fails last, (RunUpdateGaLoop s date retry w).passes = fails ++ [last] ∧
        (∀ p ∈ fails, p.1 ≠ none) ∧ fails.length ≤ n ∧
        (last.1 = none → (RunUpdateGaLoop s date retry w).final = last.2) ∧
        (∀ e, last.1 = some e → fails.length = n ∧
          (RunUpdateGaLoop s date retry w).final = last.2.log (.failed e (MaxRetry + 1))) := by
  intro n
  induction n with
  | zero =>
    intro retry w hn
    cases h : (tryRunUpdateGa s date w).1 with
    | none =>
      rw [loop_done s date retry w h]
      exact ⟨[], _, rfl, by simp, by simp, fun _ => rfl, fun e he => by simp [h] at he⟩
    | some e =>
      rw [loop_give_up s date retry w e h (by omega)]
      refine ⟨[], _, rfl, by simp, by simp, fun hl => by simp [h] at hl, fun e2 he => ?_⟩
      have : e2 = e := by rw [h] at he; exact (Option.some.inj he).symm
      have hr : retry = MaxRetry := by omega
      simp [this, hr]
  | succ n ih =>
    intro retry w hn
    cases h : (tryRunUpdateGa s date w).1 with
    | none =>
      rw [loop_done s date retry w h]
      exact ⟨[], _, rfl, by simp, by simp, fun _ => rfl, fun e he => by simp [h] at he⟩
    | some e =>
      rw [loop_again s date retry w e h (by omega)]
      obtain ⟨fails, last, h1, h2, h3, h4, h5⟩ :=
        ih (retry + 1) ((tryRunUpdateGa s date w).2.log (.failed e (retry + 1))) (by omega)
      refine ⟨tryRunUpdateGa s date w :: fails, last, by simp [h1], ?_, by simpa using h3,
        h4, fun e2 he => ?_⟩
      · intro p hp
        rcases List.mem_cons.mp hp with hp | hp
        · rw [hp, h]; simp
        · exact h2 p hp
      · obtain ⟨h6, h7⟩ := h5 e2 he
        exact ⟨by simp [h6], h7⟩

theorem loop_chained (s : sideStats σ) (date : Time) :
    ∀ (n retry : Nat) (w : World σ), retry + n = MaxRetry →
      Chained s date retry w (RunUpdateGaLoop s date retry w).passes := by
  intro n
  induction n with
  | zero =>
    intro retry w hn
    cases h : (tryRunUpdateGa s date w).1 with
    | none =>
      rw [loop_done s date retry w h]
      exact ⟨rfl, Or.inl rfl⟩
    | some e =>
      rw [loop_give_up s date retry w e h (by omega)]
      exact ⟨rfl, Or.inl rfl⟩
  | succ n ih =>
    intro retry w hn
    cases h : (tryRunUpdateGa s date w).1 with
    | none =>
      rw [loop_done s date retry w h]
      exact ⟨rfl, Or.inl rfl⟩
    | some e =>
      rw [loop_again s date retry w e h (by omega)]
      exact ⟨rfl, Or.inr ⟨e, h, ih (retry + 1) _ (by omega)⟩⟩

/-- The passes `RunUpdateGa` records are its successive invocations of `tryRunUpdateGa`,
all with the date computed at entry. -/
theorem RunUpdateGa_chained (s : sideStats σ) (w : World σ) :
    Chained s (Truncate (s.rt.now w.env) Day) 0 w (RunUpdateGa s w).passes :=
  loop_chained s (Truncate (s.rt.now w.env) Day) MaxRetry 0 w (by simp)

end LoopLemmas

section Helpers
variable {σ : Type}

theorem fetchAll_err (ts : Time) :
    ∀ (order : List (String × String)), ∀ c ∈ fetchAll ts order, c.err = none ∧ c.InWindow ts := by
  intro order
  induction order with
  | nil => intro c hc; simp [fetchAll] at hc
  | cons x rest ih =>
    intro c hc
    simp only [fetchAll, fetchPair, List.mem_append, List.mem_cons, List.mem_singleton,
      List.not_mem_nil, or_false] at hc
    rcases hc with (hc | hc) | hc
    · subst hc; simp [Call.err, Call.InWindow]
    · subst hc; simp [Call.err, Call.InWindow]
    · exact ih c hc

theorem fetchAll_length (ts : Time) :
    ∀ (order : List (String × String)), (fetchAll ts order).length = 2 * order.length := by
  intro order
  induction order with
  | nil => rfl
  | cons x rest ih => simp [fetchAll, fetchPair, ih]; omega

theorem split_at_last {α : Type} (P : α → Prop) :
    ∀ (xs l1 l2 : List α) (d c : α), (∀ x ∈ xs, ¬ P x) → P c →
      xs ++ [d] = l1 ++ c :: l2 → l1 = xs ∧ c = d ∧ l2 = [] := by
  intro xs
  induction xs with
  | nil =>
    intro l1 l2 d c _ _ h
    cases l1 with
    | nil =>
      simp only [List.nil_append, List.cons.injEq] at h
      exact ⟨rfl, h.1.symm, h.2.symm⟩
    | cons a tl =>
      simp only [List.nil_append, List.cons_append, List.cons.injEq] at h
      exact absurd h.2.symm (by simp)
  | cons x xs ih =>
    intro l1 l2 d c hx hc h
    cases l1 with
    | nil =>
      simp only [List.nil_append, List.cons_append, List.cons.injEq] at h
      exact absurd (h.1 ▸ hc) (hx x (List.mem_cons_self _ _))
    | cons a tl =>
      simp only [List.cons_append, List.cons.injEq] at h
      obtain ⟨h1, h2, h3⟩ := ih tl l2 d c (fun y hy => hx y (List.mem_cons_of_mem _ hy)) hc h.2
      exact ⟨by rw [h.1, h1], h2, h3⟩

theorem index_absent {K V : Type} [DecidableEq K] (m : GoMap K V) (k : K) (zero : V)
    (h : k ∉ m.keys) : m.index k zero = zero := by
  have hfind : m.entries.find? (fun e => decide (e.1 = k)) = none := by
    rw [List.find?_eq_none]
    intro x hx hk
    apply h
    simp only [decide_eq_true_eq] at hk
    simp only [GoMap.keys, List.mem_map]
    exact ⟨x, hx, hk⟩
  simp [GoMap.index, hfind]

theorem try_grows (s : sideStats σ) (ts : Time) (w : World σ) :
    ∃ cs bs, (tryRunUpdateGa s ts w).2.calls = w.calls ++ cs ∧
      (tryRunUpdateGa s ts w).2.batches = w.batches ++ bs ∧
      (∀ c ∈ cs, c.InWindow ts) ∧ (∀ b ∈ bs, b.BuiltAt ts) := by
  obtain ⟨bs, hb1, hb2, _⟩ :=
    range_batches s ts (s.rt.rangeIds s.config.GoogleAnalyticsIds w.env) w
  rcases range_char s ts (s.rt.rangeIds s.config.GoogleAnalyticsIds w.env) w with
    ⟨_, h2⟩ | ⟨e, pre, k2, g2, post, _, _, h2 | h2⟩
  · exact ⟨_, bs, h2, hb1, fun c hc => (fetchAll_err ts _ c hc).2, hb2⟩
  · refine ⟨_, bs, h2, hb1, fun c hc => ?_, hb2⟩
    rcases List.mem_append.mp hc with hc | hc
    · exact (fetchAll_err ts _ c hc).2
    · simp only [List.mem_singleton] at hc
      subst hc; simp [Call.InWindow]
  · refine ⟨_, bs, h2, hb1, fun c hc => ?_, hb2⟩
    rcases List.mem_append.mp hc with hc | hc
    · exact (fetchAll_err ts _ c hc).2
    · simp only [List.mem_cons, List.mem_singleton, List.not_mem_nil, or_false] at hc
      rcases hc with hc | hc <;> subst hc <;> simp [Call.InWindow]

theorem loop_grows (s : sideStats σ) (date : Time) :
    ∀ (n retry : Nat) (w : World σ), retry + n = MaxRetry →
      ∃ cs bs, (RunUpdateGaLoop s date retry w).final.calls = w.calls ++ cs ∧
        (RunUpdateGaLoop s date retry w).final.batches = w.batches ++ bs ∧
        (∀ c ∈ cs, c.InWindow date) ∧ (∀ b ∈ bs, b.BuiltAt date) := by
  intro n
  induction n with
  | zero =>
    intro retry w hn
    obtain ⟨cs, bs, h1, h2, h3, h4⟩ := try_grows s date w
    cases h : (tryRunUpdateGa s date w).1 with
    | none =>
      rw [loop_done s date retry w h]
      exact ⟨cs, bs, h1, h2, h3, h4⟩
    | some e =>
      rw [loop_give_up s date retry w e h (by omega)]
      exact ⟨cs, bs, h1, h2, h3, h4⟩
  | succ n ih =>
    intro retry w hn
    obtain ⟨cs, bs, h1, h2, h3, h4⟩ := try_grows s date w
    cases h : (tryRunUpdateGa s date w).1 with
    | none =>
      rw [loop_done s date retry w h]
      exact ⟨cs, bs, h1, h2, h3, h4⟩
    | some e =>
      rw [loop_again s date retry w e h (by omega)]
      obtain ⟨cs2, bs2, g1, g2, g3, g4⟩ :=
        ih (retry + 1) ((tryRunUpdateGa s date w).2.log (.failed e (retry + 1))) (by omega)
      refine ⟨cs ++ cs2, bs ++ bs2, ?_, ?_, ?_, ?_⟩
      · rw [g1]; simp only [World.log]; rw [h1, List.append_assoc]
      · rw [g2]; simp only [World.log]; rw [h2, List.append_assoc]
      · intro c hc
        rcases List.mem_append.mp hc with hc | hc
        · exact h3 c hc
        · exact g3 c hc
      · intro b hb
        rcases List.mem_append.mp hb with hb | hb
        · exact h4 b hb
        · exact g4 b hb

end Helpers

/-! ## The claims -/

section Claims
variable {σ : Type}

/-- C1: one invocation of `RunUpdateGa` runs at least one and at most `MaxRetry + 1 = 6`
passes, whatever the providers do; when every pass it runs returns an error it runs
exactly 6, the sixth being the last, and then returns with nothing more than the
logger line of the sixth failure. -/
theorem RunUpdateGa_pass_count (s : sideStats σ) (w : World σ) :
    MaxRetry + 1 = 6 ∧
    1 ≤ (RunUpdateGa s w).passes.length ∧
    (RunUpdateGa s w).passes.length ≤ MaxRetry + 1 ∧
    ((∀ p ∈ (RunUpdateGa s w).passes, p.1 ≠ none) →
      (RunUpdateGa s w).passes.length = MaxRetry + 1 ∧
      ∃ e wl, (RunUpdateGa s w).passes.getLast? = some (some e, wl) ∧
        (RunUpdateGa s w).final = wl.log (.failed e (MaxRetry + 1))) := by
  obtain ⟨fails, last, h1, _, h3, _, h5⟩ :=
    loop_spec s (Truncate (s.rt.now w.env) Day) MaxRetry 0 w (by simp)
  have hp : (RunUpdateGa s w).passes = fails ++ [last] := h1
  have hf : (RunUpdateGa s w).final =
      (RunUpdateGaLoop s (Truncate (s.rt.now w.env) Day) 0 w).final := rfl
  refine ⟨rfl, by simp [hp], by simp [hp]; omega, fun hall => ?_⟩
  have hl : last.1 ≠ none := hall last (by simp [hp])
  obtain ⟨e, he⟩ := Option.ne_none_iff_exists.mp hl
  obtain ⟨h6, h7⟩ := h5 e he.symm
  refine ⟨by simp [hp, h6], e, last.2, ?_, by rw [hf, h7]⟩
  rw [hp, List.getLast?_concat, he]

/-- C2: for `1 <= k <= MaxRetry`, when the first `k - 1` passes of an invocation return an
error, a `k`-th pass is run; and when that pass returns nil it is the last one:
`RunUpdateGa` runs exactly `k` passes and returns in the world the `k`-th pass left,
so no provider call follows it. -/
theorem RunUpdateGa_stops_at_success (s : sideStats σ) (w : World σ) (k : Nat)
    (hk1 : 1 ≤ k) (hk5 : k ≤ MaxRetry)
    (hfail : ∀ i, i < k - 1 →
      ∃ e, ((RunUpdateGa s w).passes.map Prod.fst)[i]? = some (some e)) :
    k ≤ (RunUpdateGa s w).passes.length ∧
    (((RunUpdateGa s w).passes.map Prod.fst)[k - 1]? = some none →
      (RunUpdateGa s w).passes.length = k ∧
      ∃ wk, (RunUpdateGa s w).passes[k - 1]? = some (none, wk) ∧
        (RunUpdateGa s w).final = wk ∧ (RunUpdateGa s w).final.calls = wk.calls) := by
  obtain ⟨fails, last, h1, h2, h3, h4, h5⟩ :=
    loop_spec s (Truncate (s.rt.now w.env) Day) MaxRetry 0 w (by simp)
  have hp : (RunUpdateGa s w).passes = fails ++ [last] := h1
  have hf : (RunUpdateGa s w).final =
      (RunUpdateGaLoop s (Truncate (s.rt.now w.env) Day) 0 w).final := rfl
  have hlast : ((RunUpdateGa s w).passes.map Prod.fst)[fails.length]? = some last.1 := by
    rw [hp, List.map_append]
    simp
  have hlen : k ≤ (RunUpdateGa s w).passes.length := by
    by_contra hlt
    have hlt2 : fails.length < k - 1 := by
      simp only [hp, List.length_append, List.length_singleton] at hlt
      omega
    obtain ⟨e, he⟩ := hfail fails.length hlt2
    rw [hlast] at he
    obtain ⟨h6, _⟩ := h5 e (Option.some.inj he)
    omega
  refine ⟨hlen, fun hok => ?_⟩
  have hge : fails.length ≤ k - 1 := by
    by_contra hlt
    have hlt2 : k - 1 < fails.length := by omega
    rw [hp, List.map_append, List.getElem?_append_left (by simpa using hlt2)] at hok
    simp only [List.getElem?_map] at hok
    cases hg : fails[k - 1]? with
    | none => simp [hg] at hok
    | some p =>
      simp [hg] at hok
      exact h2 p (List.getElem?_mem hg) hok
  have hlt : k - 1 < (RunUpdateGa s w).passes.length := by omega
  have heq : k - 1 = fails.length := by
    simp only [hp, List.length_append, List.length_singleton] at hlt
    omega
  rw [heq, hlast] at hok
  have hnone : last.1 = none := Option.some.inj hok
  have hfin := h4 hnone
  refine ⟨by simp only [hp, List.length_append, List.length_singleton]; omega, last.2, ?_,
    by rw [hf, hfin], by rw [hf, hfin]⟩
  rw [heq, hp, List.getElem?_concat_length]
  rw [← hnone]

/-- C4: in one invocation of `RunUpdateGa`, with `syncDate` the clock reading at entry
truncated to the day, every provider call made in any pass is a summary or entity fetch
over the window `[syncDate - Day, syncDate)`, and every summary and entity record held
at a saving point carries the stamp of `syncDate`, however the environment (the clock
included) changes during the invocation. -/
theorem RunUpdateGa_one_sync_date (s : sideStats σ) (w : World σ) :
    ∃ cs bs, (RunUpdateGa s w).final.calls = w.calls ++ cs ∧
      (RunUpdateGa s w).final.batches = w.batches ++ bs ∧
      (∀ c ∈ cs, c.InWindow (Truncate (s.rt.now w.env) Day)) ∧
      (∀ b ∈ bs, b.summary.Timestamp = NewDate (Truncate (s.rt.now w.env) Day) ∧
        ∀ q ∈ b.stamped, q.Timestamp = NewDate (Truncate (s.rt.now w.env) Day)) := by
  obtain ⟨cs, bs, h1, h2, h3, h4⟩ :=
    loop_grows s (Truncate (s.rt.now w.env) Day) MaxRetry 0 w (by simp)
  refine ⟨cs, bs, h1, h2, h3, fun b hb => ?_⟩
  obtain ⟨hs, order, _, _, hst⟩ := h4 b hb
  refine ⟨hs, fun q hq => ?_⟩
  rw [hst] at hq
  obtain ⟨x, _, hx⟩ := List.mem_map.mp hq
  rw [← hx]

/-- C10: the date `RunUpdateGa` hands to every pass is the clock reading `now` truncated
to `Day = 24h`: a whole multiple of `Day` with `syncDate <= now < syncDate + Day`, the
latest multiple of `Day` not after `now`, and a fixed point of the truncation; the window
start `syncDate - Day` is a multiple of `Day` as well. -/
theorem syncDate_day_boundary (s : sideStats σ) (w : World σ) :
    RunUpdateGa s w = RunUpdateGaLoop s (Truncate (s.rt.now w.env) Day) 0 w ∧
    Day = 24 * 3600 * 1000000000 ∧
    Day ∣ Truncate (s.rt.now w.env) Day ∧
    Truncate (s.rt.now w.env) Day ≤ s.rt.now w.env ∧
    s.rt.now w.env < Truncate (s.rt.now w.env) Day + Day ∧
    Truncate (Truncate (s.rt.now w.env) Day) Day = Truncate (s.rt.now w.env) Day ∧
    (∀ b : Time, Day ∣ b → b ≤ s.rt.now w.env → b ≤ Truncate (s.rt.now w.env) Day) ∧
    Day ∣ Truncate (s.rt.now w.env) Day - Day := by
  have hD : Day = 86400000000000 := by decide
  refine ⟨rfl, ?_⟩
  generalize s.rt.now w.env = now
  have hT : ∀ t : Time, Truncate t Day = t - t % 86400000000000 := by
    intro t
    simp [Truncate, hD]
  have k1 : ∀ t : Int, (86400000000000 : Int) ∣ t - t % 86400000000000 := by intro t; omega
  have k2 : ∀ t : Int, t - t % 86400000000000 ≤ t := by intro t; omega
  have k3 : ∀ t : Int, t < t - t % 86400000000000 + 86400000000000 := by intro t; omega
  have k4 : ∀ t : Int, (t - t % 86400000000000) - (t - t % 86400000000000) % 86400000000000 =
      t - t % 86400000000000 := by intro t; omega
  have k5 : ∀ t b : Int, (86400000000000 : Int) ∣ b → b ≤ t → b ≤ t - t % 86400000000000 := by
    intro t b hb hle; omega
  have k6 : ∀ t : Int, (86400000000000 : Int) ∣ t - t % 86400000000000 - 86400000000000 := by
    intro t; omega
  refine ⟨by rw [hD]; norm_num, ?_, ?_, ?_, ?_, ?_, ?_⟩
  · rw [hT, hD]; exact k1 now
  · rw [hT]; exact k2 now
  · rw [hT, hD]; exact k3 now
  · rw [hT, hT]; exact k4 now
  · intro b hb hle
    rw [hT]
    rw [hD] at hb
    exact k5 now b hb hle
  · rw [hT, hD]; exact k6 now

/-- C6: each of `Realtime`, `ServersStats` and `ProjectStats` records exactly one call, to
its own client, leaves the environment that call left, and returns the `(value, error)`
pair of that call as it is, an error included. -/
theorem facade_single_call (t : sideStats σ) (w : World σ) :
    ((Realtime t w).1 =
        (t.gaClient.GaGetRealtime (t.config.GoogleAnalyticsIds.index rtGAKeyName "") w.env).1 ∧
      (Realtime t w).2.calls = w.calls ++
        [.GaGetRealtime (t.config.GoogleAnalyticsIds.index rtGAKeyName "") (Realtime t w).1.2] ∧
      (Realtime t w).2.env =
        (t.gaClient.GaGetRealtime (t.config.GoogleAnalyticsIds.index rtGAKeyName "") w.env).2) ∧
    ((ServersStats t w).1 = (t.nrClient.GetServersStats w.env).1 ∧
      (ServersStats t w).2.calls = w.calls ++ [.GetServersStats (ServersStats t w).1.2] ∧
      (ServersStats t w).2.env = (t.nrClient.GetServersStats w.env).2) ∧
    ((ProjectStats t w).1 = (t.tcClient.GetProjectsStatus w.env).1 ∧
      (ProjectStats t w).2.calls = w.calls ++ [.GetProjectsStatus (ProjectStats t w).1.2] ∧
      (ProjectStats t w).2.env = (t.tcClient.GetProjectsStatus w.env).2) :=
  ⟨⟨rfl, rfl, rfl⟩, ⟨rfl, rfl, rfl⟩, ⟨rfl, rfl, rfl⟩⟩

/-- C5, as stated, fails: with no account configured at all, `Realtime` calls the
analytics provider once, with the empty identifier, and returns its successful answer. -/
theorem Realtime_unconfigured_calls_provider :
    (abStats rtListed GoMap.empty 0 true).config.GoogleAnalyticsIds.entries = [] ∧
    (Realtime (abStats rtListed GoMap.empty 0 true) (World.init 0)).1 = (42, none) ∧
    (Realtime (abStats rtListed GoMap.empty 0 true) (World.init 0)).2.calls =
      [.GaGetRealtime "" none] := by
  refine ⟨rfl, ?_, ?_⟩ <;>
    simp [Realtime, abStats, abClient, GoMap.index, GoMap.empty, World.init, World.call]

/-- C5, amended: when `GoogleAnalyticsIds` has no entry for the key `"TheQuestion"`,
`Realtime` calls `GaGetRealtime` exactly once, with the empty string as identifier, and
returns the `(value, error)` pair of that call as it is. -/
theorem Realtime_unconfigured (t : sideStats σ) (w : World σ)
    (h : rtGAKeyName ∉ t.config.GoogleAnalyticsIds.keys) :
    (Realtime t w).1 = (t.gaClient.GaGetRealtime "" w.env).1 ∧
    (Realtime t w).2.calls = w.calls ++ [.GaGetRealtime "" (t.gaClient.GaGetRealtime "" w.env).1.2] ∧
    (Realtime t w).2.env = (t.gaClient.GaGetRealtime "" w.env).2 := by
  have hi := index_absent t.config.GoogleAnalyticsIds rtGAKeyName "" h
  simp [Realtime, hi, World.call]

/-- C3: in one pass, a fetch that returns an error is the last provider call of the pass
and the pass returns that very error; the calls before it are the two successful
fetches of each account yielded earlier by `range`, followed, when the failing call is
an entity fetch, by the successful summary fetch of the same account.  So the entity
fetch of an account whose summary fetch failed is not made, and no later account is
fetched. -/
theorem tryRunUpdateGa_fail_fast (s : sideStats σ) (ts : Time) (w : World σ)
    (l1 l2 : List Call) (c : Call) (e : Error)
    (hcs : (tryRunUpdateGa s ts w).2.calls = w.calls ++ (l1 ++ c :: l2))
    (herr : c.err = some e) :
    (tryRunUpdateGa s ts w).1 = some e ∧ l2 = [] ∧
    ∃ pre key gaId post,
      s.rt.rangeIds s.config.GoogleAnalyticsIds w.env = pre ++ (key, gaId) :: post ∧
      ((c = .GaGetSummaryData gaId (ts - Day) ts (some e) ∧ l1 = fetchAll ts pre) ∨
       (c = .GaGetQuestionsData gaId (ts - Day) ts (some e) ∧
        l1 = fetchAll ts pre ++ [.GaGetSummaryData gaId (ts - Day) ts none])) := by
  have hP : (fun x : Call => x.err ≠ none) c := by simp [herr]
  rcases range_char s ts (s.rt.rangeIds s.config.GoogleAnalyticsIds w.env) w with
    ⟨_, h2⟩ | ⟨e2, pre, key, gaId, post, ho, h1, h2 | h2⟩
  · have h3 : fetchAll ts (s.rt.rangeIds s.config.GoogleAnalyticsIds w.env) = l1 ++ c :: l2 :=
      List.append_cancel_left (h2.symm.trans hcs)
    have hc : c ∈ fetchAll ts (s.rt.rangeIds s.config.GoogleAnalyticsIds w.env) := by
      rw [h3]; simp
    have := (fetchAll_err ts _ c hc).1
    rw [herr] at this
    exact absurd this (by simp)
  · have h3 := List.append_cancel_left (h2.symm.trans hcs)
    obtain ⟨g1, g2, g3⟩ := split_at_last (fun x : Call => x.err ≠ none) (fetchAll ts pre) l1 l2 _ c
      (fun x hx => by simp [(fetchAll_err ts pre x hx).1]) hP h3
    have he : e2 = e := by
      rw [g2] at herr
      simpa [Call.err] using herr
    subst he
    exact ⟨h1, g3, pre, key, gaId, post, ho, Or.inl ⟨g2, g1⟩⟩
  · have h3 := List.append_cancel_left (h2.symm.trans hcs)
    have h4 : (fetchAll ts pre ++ [Call.GaGetSummaryData gaId (ts - Day) ts none]) ++
        [Call.GaGetQuestionsData gaId (ts - Day) ts (some e2)] = l1 ++ c :: l2 := by
      rw [← h3]; simp
    obtain ⟨g1, g2, g3⟩ := split_at_last (fun x : Call => x.err ≠ none) _ l1 l2 _ c
      (fun x hx => by
        rcases List.mem_append.mp hx with hx | hx
        · simp [(fetchAll_err ts pre x hx).1]
        · simp only [List.mem_singleton] at hx
          simp [hx, Call.err]) hP h4
    have he : e2 = e := by
      rw [g2] at herr
      simpa [Call.err] using herr
    subst he
    exact ⟨h1, g3, pre, key, gaId, post, ho, Or.inr ⟨g2, g1⟩⟩

/-- C8: a pass none of whose provider calls fails returns nil, and its calls are, for
each configured account in the order `range` yields them, one summary fetch followed by
one entity fetch, two calls per account; the logger never gets the line of the skip
branch, and one batch per account reaches the saving point.  With no account configured
the pass returns nil and changes nothing. -/
theorem tryRunUpdateGa_all_ok (s : sideStats σ) (ts : Time) (w : World σ) :
    (∀ cs, (tryRunUpdateGa s ts w).2.calls = w.calls ++ cs → (∀ c ∈ cs, c.err = none) →
      (tryRunUpdateGa s ts w).1 = none ∧
      cs = fetchAll ts (s.rt.rangeIds s.config.GoogleAnalyticsIds w.env) ∧
      (s.rt.rangeIds s.config.GoogleAnalyticsIds w.env).Perm
        s.config.GoogleAnalyticsIds.entries ∧
      cs.length = 2 * s.config.GoogleAnalyticsIds.len ∧
      (∃ bs, (tryRunUpdateGa s ts w).2.batches = w.batches ++ bs ∧
        bs.map (fun b => b.gaId) =
          (s.rt.rangeIds s.config.GoogleAnalyticsIds w.env).map Prod.snd)) ∧
    (∃ ls, (tryRunUpdateGa s ts w).2.logs = w.logs ++ ls ∧ ∀ g, LogEntry.skipping g ∉ ls) ∧
    (s.config.GoogleAnalyticsIds.entries = [] → tryRunUpdateGa s ts w = (none, w)) := by
  have hperm := s.rt.rangeIds_perm s.config.GoogleAnalyticsIds w.env
  refine ⟨fun cs hcs hok => ?_,
    range_logs s ts (s.rt.rangeIds s.config.GoogleAnalyticsIds w.env) w, fun hnil => ?_⟩
  · obtain ⟨bs, hb1, _, hb3⟩ :=
      range_batches s ts (s.rt.rangeIds s.config.GoogleAnalyticsIds w.env) w
    rcases range_char s ts (s.rt.rangeIds s.config.GoogleAnalyticsIds w.env) w with
      ⟨h1, h2⟩ | ⟨e2, pre, key, gaId, post, _, _, h2 | h2⟩
    · have h3 : cs = fetchAll ts (s.rt.rangeIds s.config.GoogleAnalyticsIds w.env) :=
        List.append_cancel_left (hcs.symm.trans h2)
      refine ⟨h1, h3, hperm, ?_, bs, hb1, hb3 h1⟩
      rw [h3, fetchAll_length, hperm.length_eq, GoMap.len]
    · have h3 := List.append_cancel_left (hcs.symm.trans h2)
      have := hok (.GaGetSummaryData gaId (ts - Day) ts (some e2)) (by rw [h3]; simp)
      simp [Call.err] at this
    · have h3 := List.append_cancel_left (hcs.symm.trans h2)
      have := hok (.GaGetQuestionsData gaId (ts - Day) ts (some e2)) (by rw [h3]; simp)
      simp [Call.err] at this
  · have hr : s.rt.rangeIds s.config.GoogleAnalyticsIds w.env = [] := by
      rw [hnil] at hperm
      exact List.Perm.eq_nil hperm
    simp [tryRunUpdateGa, hr, range_nil]

/-- C7, as stated, fails: when `range` yields `B` before `A`, each of the attempts 1 to 3
stops at the failing summary fetch of `B` without fetching `A`, and the whole invocation
makes one summary fetch for `A`, not four. -/
theorem RunUpdateGa_scenario_B_first :
    rtReversed.rangeIds abMap 0 = [("B", "ga-B"), ("A", "ga-A")] ∧
    (RunUpdateGa (abStats rtReversed abMap 3 true) (World.init 0)).passes.map Prod.fst =
      [some "down", some "down", some "down", none] ∧
    summaryFetches "ga-A"
      (RunUpdateGa (abStats rtReversed abMap 3 true) (World.init 0)).final.calls = 1 ∧
    summaryFetches "ga-B"
      (RunUpdateGa (abStats rtReversed abMap 3 true) (World.init 0)).final.calls = 4 := by
  refine ⟨rfl, ?_, ?_, ?_⟩ <;>
    simp [RunUpdateGa, RunUpdateGaLoop, tryRunUpdateGa, tryRunUpdateGaRange, abStats,
      rtReversed, abClient, abMap, World.init, World.log, World.call, World.build, MaxRetry,
      fillIds, GoMap.len, GoMap.empty, twoQuestions, summaryFetches]

/-- C7, amended: with the accounts `A` and `B`, a provider that always succeeds for `A`
and fails for `B` (at its summary or its entity fetch) in attempts 1 to 3, and a `range`
that yields `A` before `B` in every pass, `RunUpdateGa` makes four passes: each of the
first three fetches `A` and stops at `B`, the fourth fetches both, and the invocation
ends there; it makes 4 summary fetches for `A` and 4 for `B`, all over the window of the
one sync date, and every batch carries the stamp of that date. -/
theorem RunUpdateGa_scenario_A_first (rt : Runtime Nat) (atSummary : Bool)
    (h : ∀ e, rt.rangeIds abMap e = [("A", "ga-A"), ("B", "ga-B")]) :
    (RunUpdateGa (abStats rt abMap 3 atSummary) (World.init 0)).passes.map Prod.fst =
      [some "down", some "down", some "down", none] ∧
    (RunUpdateGa (abStats rt abMap 3 atSummary) (World.init 0)).final.calls =
      abortedAtB (Truncate (rt.now 0) Day) atSummary ++
      abortedAtB (Truncate (rt.now 0) Day) atSummary ++
      abortedAtB (Truncate (rt.now 0) Day) atSummary ++
      fetchAll (Truncate (rt.now 0) Day) [("A", "ga-A"), ("B", "ga-B")] ∧
    summaryFetches "ga-A"
      (RunUpdateGa (abStats rt abMap 3 atSummary) (World.init 0)).final.calls = 4 ∧
    summaryFetches "ga-B"
      (RunUpdateGa (abStats rt abMap 3 atSummary) (World.init 0)).final.calls = 4 ∧
    (RunUpdateGa (abStats rt abMap 3 atSummary) (World.init 0)).final.batches.map
        (fun b => (b.gaId, b.summary.Timestamp)) =
      [("ga-A", NewDate (Truncate (rt.now 0) Day)), ("ga-A", NewDate (Truncate (rt.now 0) Day)),
       ("ga-A", NewDate (Truncate (rt.now 0) Day)), ("ga-A", NewDate (Truncate (rt.now 0) Day)),
       ("ga-B", NewDate (Truncate (rt.now 0) Day))] := by
  cases atSummary <;>
    simp [RunUpdateGa, RunUpdateGaLoop, tryRunUpdateGa, tryRunUpdateGaRange, abStats,
      abClient, h, World.init, World.log, World.call, World.build, MaxRetry,
      fillIds, GoMap.len, GoMap.empty, twoQuestions, summaryFetches, abortedAtB, fetchAll,
      fetchPair]

/-- The amended C7 at the runtime whose `range` yields the entries as listed. -/
theorem RunUpdateGa_scenario_A_first_witness :
    (∀ e, rtListed.rangeIds abMap e = [("A", "ga-A"), ("B", "ga-B")]) ∧
    summaryFetches "ga-A"
      (RunUpdateGa (abStats rtListed abMap 3 true) (World.init 0)).final.calls = 4 ∧
    summaryFetches "ga-B"
      (RunUpdateGa (abStats rtListed abMap 3 true) (World.init 0)).final.calls = 4 :=
  ⟨fun _ => rfl,
    (RunUpdateGa_scenario_A_first rtListed true (fun _ => rfl)).2.2.1,
    (RunUpdateGa_scenario_A_first rtListed true (fun _ => rfl)).2.2.2.1⟩

/-! ## The definitions run on the concrete deployment -/

theorem abRun_always_down :
    (RunUpdateGa (abStats rtListed abMap 10 false) (World.init 0)).passes.map Prod.fst =
      [some "down", some "down", some "down", some "down", some "down", some "down"] := by
  simp [RunUpdateGa, RunUpdateGaLoop, tryRunUpdateGa, tryRunUpdateGaRange, abStats,
    rtListed, abClient, abMap, World.init, World.log, World.call, World.build, MaxRetry,
    fillIds, GoMap.len, GoMap.empty, twoQuestions]

theorem abRun_down_once :
    (RunUpdateGa (abStats rtListed abMap 1 true) (World.init 0)).passes.map Prod.fst =
      [some "down", none] := by
  simp [RunUpdateGa, RunUpdateGaLoop, tryRunUpdateGa, tryRunUpdateGaRange, abStats,
    rtListed, abClient, abMap, World.init, World.log, World.call, World.build, MaxRetry,
    fillIds, GoMap.len, GoMap.empty, twoQuestions]

theorem abPass_aborted :
    (tryRunUpdateGa (abStats rtListed abMap 3 true) 1000 (World.init 0)).2.calls =
      (World.init (0 : Nat)).calls ++ (fetchPair 1000 "ga-A" ++
        Call.GaGetSummaryData "ga-B" (1000 - Day) 1000 (some "down") :: []) := by
  simp [tryRunUpdateGa, tryRunUpdateGaRange, abStats,
    rtListed, abClient, abMap, World.init, World.log, World.call, World.build,
    fillIds, GoMap.len, GoMap.empty, twoQuestions, fetchPair]

theorem abPass_ok :
    (tryRunUpdateGa (abStats rtListed abMap 0 true) 1000 (World.init 0)).2.calls =
      (World.init (0 : Nat)).calls ++ fetchAll 1000 [("A", "ga-A"), ("B", "ga-B")] := by
  simp [tryRunUpdateGa, tryRunUpdateGaRange, abStats,
    rtListed, abClient, abMap, World.init, World.log, World.call, World.build,
    fillIds, GoMap.len, GoMap.empty, twoQuestions, fetchPair, fetchAll]

/-- The entities 101 and 102 of account `ga-A` end up as two keys and two stamped
records, in the order `range` yielded them. -/
theorem abPass_batches :
    (tryRunUpdateGa (abStats rtReversed abMap 0 true) 1000 (World.init 0)).2.batches.map
        (fun b => (b.gaId, b.summary, b.qIds, b.stamped)) =
      [("ga-B", ⟨[1], NewDate 1000⟩, [], []),
       ("ga-A", ⟨[1], NewDate 1000⟩, [102, 101],
        [⟨[9], NewDate 1000⟩, ⟨[7], NewDate 1000⟩])] := by
  simp [tryRunUpdateGa, tryRunUpdateGaRange, abStats,
    rtReversed, abClient, abMap, World.init, World.log, World.call, World.build,
    fillIds, GoMap.len, GoMap.empty, twoQuestions]

/-! ## Witnesses -/

/-- C1 at a provider whose account `ga-B` fails ten times in a row: all passes fail and
there are six of them. -/
theorem RunUpdateGa_pass_count_witness :
    (∀ p ∈ (RunUpdateGa (abStats rtListed abMap 10 false) (World.init 0)).passes, p.1 ≠ none) ∧
    (RunUpdateGa (abStats rtListed abMap 10 false) (World.init 0)).passes.length = 6 :=
  have hall : ∀ p ∈ (RunUpdateGa (abStats rtListed abMap 10 false) (World.init 0)).passes,
      p.1 ≠ none := by
    intro p hp
    have hm := List.mem_map_of_mem Prod.fst hp
    rw [abRun_always_down] at hm
    simp only [List.mem_cons, List.mem_singleton, List.not_mem_nil, or_false, or_self] at hm
    simp [hm]
  ⟨hall, ((RunUpdateGa_pass_count (abStats rtListed abMap 10 false) (World.init 0)).2.2.2
    hall).1⟩

/-- C2 at `k = 2`, with a provider whose account `ga-B` fails once. -/
theorem RunUpdateGa_stops_at_success_witness :
    (1 ≤ 2 ∧ 2 ≤ MaxRetry ∧
      (∀ i, i < 2 - 1 → ∃ e,
        ((RunUpdateGa (abStats rtListed abMap 1 true) (World.init 0)).passes.map Prod.fst)[i]? =
          some (some e)) ∧
      ((RunUpdateGa (abStats rtListed abMap 1 true) (World.init 0)).passes.map Prod.fst)[2 - 1]? =
        some none) ∧
    (RunUpdateGa (abStats rtListed abMap 1 true) (World.init 0)).passes.length = 2 :=
  have hfail : ∀ i, i < 2 - 1 → ∃ e,
      ((RunUpdateGa (abStats rtListed abMap 1 true) (World.init 0)).passes.map Prod.fst)[i]? =
        some (some e) := by
    intro i hi
    have h0 : i = 0 := by omega
    subst h0
    rw [abRun_down_once]
    exact ⟨"down", rfl⟩
  have hok :
      ((RunUpdateGa (abStats rtListed abMap 1 true) (World.init 0)).passes.map Prod.fst)[2 - 1]? =
        some none := by
    rw [abRun_down_once]
    rfl
  ⟨⟨by decide, by decide, hfail, hok⟩,
    ((RunUpdateGa_stops_at_success (abStats rtListed abMap 1 true) (World.init 0) 2
      (by decide) (by decide) hfail).2 hok).1⟩

/-- C3 at a pass that fetches `ga-A` and fails at the summary fetch of `ga-B`. -/
theorem tryRunUpdateGa_fail_fast_witness :
    ((tryRunUpdateGa (abStats rtListed abMap 3 true) 1000 (World.init 0)).2.calls =
        (World.init (0 : Nat)).calls ++ (fetchPair 1000 "ga-A" ++
          Call.GaGetSummaryData "ga-B" (1000 - Day) 1000 (some "down") :: []) ∧
      (Call.GaGetSummaryData "ga-B" (1000 - Day) 1000 (some "down")).err = some "down") ∧
    (tryRunUpdateGa (abStats rtListed abMap 3 true) 1000 (World.init 0)).1 = some "down" :=
  ⟨⟨abPass_aborted, rfl⟩,
    (tryRunUpdateGa_fail_fast (abStats rtListed abMap 3 true) 1000 (World.init 0)
      (fetchPair 1000 "ga-A") [] (Call.GaGetSummaryData "ga-B" (1000 - Day) 1000 (some "down"))
      "down" abPass_aborted rfl).1⟩

/-- The amended C5 at the accounts `A` and `B`, neither of which is the realtime key. -/
theorem Realtime_unconfigured_witness :
    rtGAKeyName ∉ (abStats rtListed abMap 0 true).config.GoogleAnalyticsIds.keys ∧
    (Realtime (abStats rtListed abMap 0 true) (World.init 0)).2.calls =
      (World.init (0 : Nat)).calls ++ [.GaGetRealtime ""
        (((abStats rtListed abMap 0 true).gaClient.GaGetRealtime "" 0).1.2)] :=
  have h : rtGAKeyName ∉ (abStats rtListed abMap 0 true).config.GoogleAnalyticsIds.keys := by
    simp [rtGAKeyName, abStats, abMap, GoMap.keys]
  ⟨h, (Realtime_unconfigured (abStats rtListed abMap 0 true) (World.init 0) h).2.1⟩

/-- C8 at a pass over `A` and `B` in which nothing fails, and at a pass with no account
configured. -/
theorem tryRunUpdateGa_all_ok_witness :
    (∀ c ∈ fetchAll 1000 [("A", "ga-A"), ("B", "ga-B")], c.err = none) ∧
    (tryRunUpdateGa (abStats rtListed abMap 0 true) 1000 (World.init 0)).1 = none ∧
    (fetchAll 1000 [("A", "ga-A"), ("B", "ga-B")]).length = 2 * abMap.len ∧
    tryRunUpdateGa (abStats rtListed GoMap.empty 0 true) 1000 (World.init 0) =
      (none, World.init 0) :=
  have hok : ∀ c ∈ fetchAll 1000 [("A", "ga-A"), ("B", "ga-B")], c.err = none :=
    fun c hc => (fetchAll_err 1000 _ c hc).1
  ⟨hok,
    ((tryRunUpdateGa_all_ok (abStats rtListed abMap 0 true) 1000 (World.init 0)).1 _
      abPass_ok hok).1,
    ((tryRunUpdateGa_all_ok (abStats rtListed abMap 0 true) 1000 (World.init 0)).1 _
      abPass_ok hok).2.2.2.1,
    (tryRunUpdateGa_all_ok (abStats rtListed GoMap.empty 0 true) 1000 (World.init 0)).2.2 rfl⟩

/-- C10 at the clock reading `100 * Day + 5`: the boundary `100 * Day` is not after it,
hence not after the sync date. -/
theorem syncDate_day_boundary_witness :
    (Day ∣ 100 * Day ∧ 100 * Day ≤ rtListed.now 0) ∧
    100 * Day ≤ Truncate (rtListed.now 0) Day :=
  have h1 : Day ∣ 100 * Day := Dvd.intro_left 100 rfl
  have h2 : 100 * Day ≤ rtListed.now 0 := by decide
  ⟨⟨h1, h2⟩,
    (syncDate_day_boundary (abStats rtListed abMap 0 true) (World.init 0)).2.2.2.2.2.2.1
      (100 * Day) h1 h2⟩

end Claims

end StatsSide
